import Mathlib

/-!
Verification development for the `load-test` repository: a Node.js tool that
replays a recorded CSV of `(timestamp, url)` lines as timed HTTP GET requests.

The embedding follows `src/index.js` (the authoritative module: `parseCSV`,
`executeRequest`, `loadTest`) and `src/unnamed/part_004` (a sibling variant of
`executeRequest` that consumes the body via `body.dump()` before classifying
the response).  JavaScript strings are embedded as `List Char`; wall-clock
instants (`Date.now()`) and recorded timestamps as `Int` (epoch milliseconds);
the float value returned by `parseFloat` is abstracted by the validated digit
string, since no property below depends on the numeric value itself.
Network behaviour is abstracted by a `NetResult` describing what the transport
layer delivered for a request; the event-loop interleaving is modelled by an
explicit scheduling loop that threads the current wall-clock time, where a
sleep advances the clock and everything else is instantaneous.
-/

/-- JavaScript `String.prototype.trim` whitespace (the ASCII part used here). -/
def isJsSpace (c : Char) : Bool :=
  c == ' ' || c == '\t' || c == '\n' || c == '\r' || c == '\x0b' || c == '\x0c'

/-- JavaScript `line.trim()` on a list of characters. -/
def jsTrim (s : List Char) : List Char :=
  ((s.dropWhile isJsSpace).reverse.dropWhile isJsSpace).reverse

/-- JavaScript `str.split(sep)` for a one-character separator: the list of
(possibly empty) pieces between occurrences of `c`.  `"".split(c) = [""]`. -/
def splitOnChar (c : Char) : List Char → List (List Char)
  | [] => [[]]
  | x :: xs =>
    match splitOnChar c xs with
    | [] => [[]]
    | h :: t => if x == c then [] :: h :: t else (x :: h) :: t

/-- Tests whether the first list is a character-wise prefix of the second. -/
def startsWith : List Char → List Char → Bool
  | [], _ => true
  | _ :: _, [] => false
  | a :: as, b :: bs => a == b && startsWith as bs

/-- The `isNaN(parseFloat(s))` test of JavaScript, as a positive predicate:
`parseFloat` skips leading whitespace and an optional sign, and produces a
number (rather than `NaN`) exactly when what follows starts with a digit, with
a dot followed by a digit, or with the literal `Infinity`.  In particular
scientific notation such as `1.23E12` is accepted (it starts with a digit). -/
def jsParseFloatIsNum (s : List Char) : Bool :=
  let s1 := s.dropWhile isJsSpace
  let s2 :=
    match s1 with
    | c :: rest => if c == '+' || c == '-' then rest else s1
    | [] => []
  match s2 with
  | [] => false
  | c :: rest =>
    c.isDigit
      || (c == '.' && (match rest with | d :: _ => d.isDigit | [] => false))
      || startsWith "Infinity".data s2

/-- One parsed CSV record, `{ time, url }` of `parseCSV` in `src/index.js`.
`time` keeps the trimmed first field (whose `parseFloat` value the code
stores); `url` is the trimmed second field. -/
structure CSVRecord where
  time : List Char
  url : List Char
deriving DecidableEq, Repr

/-- The three parse failures of `parseCSV` (`src/index.js` lines 38-54),
each identifying the failing line by its 1-based number. -/
inductive ParseErr where
  | twoColumns (lineNumber : Nat) (cols : Nat)
  | invalidTime (lineNumber : Nat) (field : List Char)
  | invalidURL (lineNumber : Nat)
deriving DecidableEq, Repr

/-- What the `transform` callback of `parseCSV` does with one input line. -/
inductive LineOut where
  | blank
  | err (e : ParseErr)
  | record (r : CSVRecord)
deriving DecidableEq, Repr

/-- The body of the `Transform` in `parseCSV` (`src/index.js` lines 28-57):
trim the line; skip it when blank; split on commas and fail unless exactly two
fields; fail when the first field is not numeric; fail when the second field
is empty after trimming; otherwise yield a record. -/
def transformLine (lineNumber : Nat) (line : List Char) : LineOut :=
  let trimmedLine := jsTrim line
  if trimmedLine = [] then .blank
  else
    match splitOnChar ',' trimmedLine with
    | [f0, f1] =>
      let timeStr := jsTrim f0
      let url := jsTrim f1
      if jsParseFloatIsNum timeStr = false then .err (.invalidTime lineNumber f0)
      else if url = [] then .err (.invalidURL lineNumber)
      else .record ⟨timeStr, url⟩
    | parts => .err (.twoColumns lineNumber parts.length)

/-- The stream behaviour of `parseCSV`: lines are processed in order with a
running line counter (incremented for every line, blank ones included); each
yielded record is pushed downstream; the first error destroys the stream, so
no further line is processed but records already yielded stand. -/
def runParse : Nat → List (List Char) → List CSVRecord × Option ParseErr
  | _, [] => ([], none)
  | n, l :: rest =>
    match transformLine (n + 1) l with
    | .blank => runParse (n + 1) rest
    | .err e => ([], some e)
    | .record r =>
      let res := runParse (n + 1) rest
      (r :: res.1, res.2)

/-- The records the error-free lines of a list would yield, in file order. -/
def yieldedRecords : Nat → List (List Char) → List CSVRecord
  | _, [] => []
  | n, l :: rest =>
    match transformLine (n + 1) l with
    | .record r => r :: yieldedRecords (n + 1) rest
    | _ => yieldedRecords (n + 1) rest

/-- No line of the list is a parse error (under the given counter offset). -/
def errorFree : Nat → List (List Char) → Bool
  | _, [] => true
  | n, l :: rest =>
    match transformLine (n + 1) l with
    | .err _ => false
    | _ => errorFree (n + 1) rest

/-- A JavaScript `Error` as `executeRequest` observes it: a `code` property
(e.g. `"ECONNREFUSED"`, `"HTTP_404"`, an undici timeout code) and a message. -/
structure JsError where
  code : String
  message : String
deriving DecidableEq, Repr

/-- What the transport layer delivers for one GET request (the behaviour of
`undici.request` as seen by `executeRequest`): a response whose status line
arrived, a connection-level failure, or a timeout of the configured budget. -/
inductive NetResult where
  | response (statusCode : Nat)
  | connError (err : JsError)
  | timeout (err : JsError)
deriving DecidableEq, Repr

/-- The value `executeRequest` resolves with (`src/index.js` lines 87 and 99):
either `{ success: true, url, statusCode }` or `{ success: false, url, error }`. -/
structure RequestOutcome where
  success : Bool
  url : String
  statusCode : Option Nat
  error : Option JsError
deriving DecidableEq, Repr

/-- The `try` block of `executeRequest` (`src/index.js` lines 68-87): await the
request; when the status code is outside `[200, 300)` construct an error with
`code = "HTTP_" + statusCode` and throw it; otherwise resolve successfully.
A transport failure or timeout is a rejection of the awaited request. -/
def executeRequestBody (url : String) (net : NetResult) :
    Except JsError RequestOutcome :=
  match net with
  | .response s =>
    if s < 200 ∨ 300 ≤ s then
      .error ⟨"HTTP_" ++ toString s, "HTTP " ++ toString s⟩
    else
      .ok { success := true, url := url, statusCode := some s, error := none }
  | .connError e => .error e
  | .timeout e => .error e

/-- The function `executeRequest` (`src/index.js` lines 67-101): the whole body runs inside
`try`/`catch`, and the `catch` arm turns any thrown error into the outcome
`{ success: false, url, error }`, so the function always resolves with a
`RequestOutcome`.  The timeout budget `timeoutMs` (default 3000) configures the
transport and is reflected in `net`; it does not change the classification. -/
def executeRequest (url : String) (timeoutMs : Nat) (net : NetResult) :
    RequestOutcome :=
  match executeRequestBody url net with
  | .ok o => o
  | .error e => { success := false, url := url, statusCode := none, error := some e }

/-- The observable steps of one request in the `src/unnamed/part_004` variant
of `executeRequest`, whose body is `await request(...)`, then
`await body.dump()`, then the status classification. -/
inductive ReqEvent where
  | requestIssued (url : String)
  | headersReceived (statusCode : Nat)
  | bodyConsumed (bytes : Nat)
  | finished (success : Bool)
deriving DecidableEq, Repr

/-- Event trace of the `src/unnamed/part_004` `executeRequest`: on any received
response the body (of whatever size `bodyBytes`) is consumed by
`await body.dump()` before the status code is classified and the outcome is
produced; on a transport failure or timeout the request finishes with no
response events. -/
def executeRequestTrace (url : String) (net : NetResult) (bodyBytes : Nat) :
    List ReqEvent × RequestOutcome :=
  match net with
  | .response s =>
    if s < 200 ∨ 300 ≤ s then
      ([.requestIssued url, .headersReceived s, .bodyConsumed bodyBytes,
        .finished false],
       { success := false, url := url, statusCode := none,
         error := some ⟨"HTTP_" ++ toString s, "HTTP " ++ toString s⟩ })
    else
      ([.requestIssued url, .headersReceived s, .bodyConsumed bodyBytes,
        .finished true],
       { success := true, url := url, statusCode := some s, error := none })
  | .connError e =>
    ([.requestIssued url, .finished false],
     { success := false, url := url, statusCode := none, error := some e })
  | .timeout e =>
    ([.requestIssued url, .finished false],
     { success := false, url := url, statusCode := none, error := some e })

/-- A record as the scheduling loop of `loadTest` consumes it: a recorded
timestamp in epoch milliseconds and the target URL. -/
structure ScheduledRequest where
  time : Int
  url : String
deriving DecidableEq, Repr

/-- One fire-and-forget dispatch: which URL was dispatched and at which
wall-clock instant the scheduling loop issued it. -/
structure Dispatch where
  url : String
  fireTime : Int
deriving DecidableEq, Repr

/-- The `for await` loop of `loadTest` (`src/index.js` lines 109-124).  `start`
is the `Date.now()` captured at entry (`startTime`), `t0` the first record's
timestamp (`firstRequestTime`), `now` the current wall clock.  For each record:
`targetTime = startTime + (req.time - firstRequestTime)`; when
`delay = targetTime - now` is positive the loop sleeps until `targetTime`
(advancing the clock), otherwise it proceeds immediately; then it dispatches
`executeRequest` without awaiting it and moves on.  Returns the dispatches in
order and the wall clock when the loop ends. -/
def schedLoop (start t0 : Int) : Int → List ScheduledRequest → List Dispatch × Int
  | now, [] => ([], now)
  | now, r :: rs =>
    let targetTime := start + (r.time - t0)
    let fire := if 0 < targetTime - now then targetTime else now
    let rest := schedLoop start t0 fire rs
    (⟨r.url, fire⟩ :: rest.1, rest.2)

/-- How `loadTest` ends (`src/index.js` lines 126-131): `No requests found in
CSV file` when the stream yielded nothing, otherwise `All requests initiated`
right after the loop. -/
inductive RunOutcome where
  | noRequestsFound
  | allInitiated
deriving DecidableEq, Repr

/-- The observable result of one `loadTest` run: the dispatched requests, the
final console outcome, and the wall-clock instant at which `loadTest` returns. -/
structure RunResult where
  dispatches : List Dispatch
  outcome : RunOutcome
  returnTime : Int
deriving DecidableEq, Repr

/-- The function `loadTest` (`src/index.js` lines 103-132) over an already-parsed record
stream, with the stream reads themselves instantaneous: capture
`startTime = Date.now()`; if no record arrives, report `noRequestsFound` and
return at once; otherwise anchor `firstRequestTime` at the first record's
timestamp, run the scheduling loop, print `All requests initiated` and return
as the loop ends.  Dispatched requests are not awaited anywhere, so the
dispatches' durations are no input of the run: `returnTime` is fixed by the
schedule alone. -/
def loadTest (start : Int) (recs : List ScheduledRequest) : RunResult :=
  match recs with
  | [] => { dispatches := [], outcome := .noRequestsFound, returnTime := start }
  | r :: rs =>
    let s := schedLoop start r.time start (r :: rs)
    { dispatches := s.1, outcome := .allInitiated, returnTime := s.2 }

/-- How many of the dispatched requests are still in flight at instant `t`,
when the i-th dispatch takes `durs[i]` milliseconds to complete: dispatched
(`fireTime ≤ t`) and not yet finished (`t < fireTime + duration`). -/
def inFlightAt (ds : List Dispatch) (durs : List Nat) (t : Int) : Nat :=
  (ds.zip durs).countP
    (fun p => decide (p.1.fireTime ≤ t ∧ t < p.1.fireTime + (p.2 : Int)))

/-- Modelled from the spec: the accelerated scheduling loop of the full
`loadTest` variant.  `src/cli.js` passes an `accelerator` argument and the
`src/unnamed/part_005` tests call `loadTest(csvPath, timeout, accelerator, ...)`,
but the `loadTest` in `src/index.js` takes no such parameter — the accelerated
implementation is missing from `src/`.  Following spec section 4.5: for every
record compute `relative = record.scheduledTime - firstRecordTime`,
`accelerated = floor(relative / accelerationFactor)` (the factor is a float,
modelled as a rational, `≥ 1` by construction, default 1), and
`targetWallClock = runStartWallClock + accelerated`; sleep only when the
target instant is still ahead, then dispatch without awaiting. -/
def schedLoopAccel (start t0 : Int) (a : ℚ) :
    Int → List ScheduledRequest → List Dispatch × Int
  | now, [] => ([], now)
  | now, r :: rs =>
    let targetTime := start + Int.floor (((r.time - t0 : Int) : ℚ) / a)
    let fire := if 0 < targetTime - now then targetTime else now
    let rest := schedLoopAccel start t0 a fire rs
    (⟨r.url, fire⟩ :: rest.1, rest.2)

/-- Modelled from the spec: the full `loadTest` with acceleration factor `a`
(missing from `src/`, see `schedLoopAccel`), over an already-parsed record
stream; identical to the `src/index.js` `loadTest` except for the accelerated
target computation. -/
def loadTestAccel (start : Int) (a : ℚ) (recs : List ScheduledRequest) :
    RunResult :=
  match recs with
  | [] => { dispatches := [], outcome := .noRequestsFound, returnTime := start }
  | r :: rs =>
    let s := schedLoopAccel start r.time a start (r :: rs)
    { dispatches := s.1, outcome := .allInitiated, returnTime := s.2 }

/-- Modelled from the spec: a well-formed absolute URL as the URL Transformer
sees it (the transformer's code is missing from `src/`; only the
`src/unnamed/part_005` tests exercise it), reduced to the parts the cache-bust
transform can touch: everything before the query string, and the ordered list
of query parameters. -/
structure AbsUrl where
  base : String
  query : List (String × String)
deriving DecidableEq, Repr

/-- All query parameters except those named `k`, in order. -/
def removeQueryParam (k : String) (ps : List (String × String)) :
    List (String × String) :=
  ps.filter (fun q => !(q.1 == k))

/-- Modelled from the spec (section 4.2): set (overwrite) the query parameter
named `k` to value `v`, preserving all other query parameters and their order —
the `URLSearchParams.set` behaviour: overwrite the first occurrence in place,
drop any further occurrences, append when absent. -/
def setQueryParam (k v : String) : List (String × String) → List (String × String)
  | [] => [(k, v)]
  | p :: ps =>
    if p.1 = k then (k, v) :: removeQueryParam k ps
    else p :: setQueryParam k v ps

/-- Modelled from the spec: the cache-busting step of the URL Transformer
(`--no-cache`): set the query parameter named `cache` to the literal `false`. -/
def addCacheBust (u : AbsUrl) : AbsUrl :=
  { u with query := setQueryParam "cache" "false" u.query }

/-- C7: for an input yielding zero records, `loadTest` terminates immediately
(returning at the very instant it started), produces the `No requests found in
CSV file` outcome, and dispatches no requests; no statistics exist on any path
of this `loadTest`. -/
theorem loadTest_empty_stream (start : Int) :
    loadTest start [] =
      { dispatches := [], outcome := .noRequestsFound, returnTime := start } := rfl

/-- C3: `executeRequest` is total at its interface: for every url, timeout
budget and transport behaviour it returns a `RequestOutcome`; its `success`
field is `true` exactly for a response with a 2xx status code, so every
failure mode (non-2xx status, connection error, timeout) yields
`success = false`; and every error thrown inside the body is captured by the
`catch` arm into the returned outcome rather than propagated. -/
theorem executeRequest_total :
    ∀ (url : String) (timeoutMs : Nat) (net : NetResult),
      ((executeRequest url timeoutMs net).success = true ↔
        ∃ s, net = .response s ∧ 200 ≤ s ∧ s < 300)
      ∧ (∀ e, executeRequestBody url net = .error e →
          executeRequest url timeoutMs net =
            { success := false, url := url, statusCode := none, error := some e }) := by
  intro url t net
  constructor
  · cases net with
    | response s =>
      by_cases h : s < 200 ∨ 300 ≤ s
      · constructor
        · intro hs
          exfalso
          revert hs
          simp [executeRequest, executeRequestBody, h]
        · rintro ⟨s', hs', h1, h2⟩
          cases hs'
          exact absurd (by omega : False) id
      · constructor
        · intro _
          exact ⟨s, rfl, by omega, by omega⟩
        · intro _
          simp [executeRequest, executeRequestBody, h]
    | connError e =>
      simp [executeRequest, executeRequestBody]
    | timeout e =>
      simp [executeRequest, executeRequestBody]
  · intro e he
    simp [executeRequest, he]

/-- Witness for C3: a connection failure is captured as a `success = false`
outcome carrying the thrown error, not propagated. -/
theorem executeRequest_total_witness :
    executeRequest "http://x" 3000
        (.connError ⟨"ECONNREFUSED", "connect ECONNREFUSED"⟩) =
      { success := false, url := "http://x", statusCode := none,
        error := some ⟨"ECONNREFUSED", "connect ECONNREFUSED"⟩ } :=
  (executeRequest_total "http://x" 3000 _).2 _ rfl

/-- C4: for every response received by `executeRequest`, the outcome has
`success = true` iff the status code lies in `[200, 300)`; any other status
code (3xx redirects included, which are not followed but thrown as errors)
yields `success = false` with an error whose `code` is the string
`HTTP_<code>`. -/
theorem executeRequest_status_classification :
    ∀ (url : String) (timeoutMs : Nat) (s : Nat),
      ((executeRequest url timeoutMs (.response s)).success = true ↔
        200 ≤ s ∧ s < 300)
      ∧ ((s < 200 ∨ 300 ≤ s) →
        ∃ e, (executeRequest url timeoutMs (.response s)).error = some e
          ∧ e.code = "HTTP_" ++ toString s
          ∧ (executeRequest url timeoutMs (.response s)).success = false) := by
  intro url t s
  constructor
  · rw [(executeRequest_total url t (.response s)).1]
    constructor
    · rintro ⟨s', hs', h1, h2⟩
      cases hs'
      exact ⟨h1, h2⟩
    · intro ⟨h1, h2⟩
      exact ⟨s, rfl, h1, h2⟩
  · intro h
    refine ⟨⟨"HTTP_" ++ toString s, "HTTP " ++ toString s⟩, ?_, rfl, ?_⟩ <;>
      simp [executeRequest, executeRequestBody, h]

/-- Witness for C4: a 301 redirect response is classified as a failure whose
error code is the string `HTTP_301`. -/
theorem executeRequest_status_classification_witness :
    ∃ e, (executeRequest "http://x" 3000 (.response 301)).error = some e
      ∧ e.code = "HTTP_301"
      ∧ (executeRequest "http://x" 3000 (.response 301)).success = false := by
  obtain ⟨e, h1, h2, h3⟩ :=
    (executeRequest_status_classification "http://x" 3000 301).2 (by omega)
  exact ⟨e, h1, by rw [h2]; rfl, h3⟩

/-- C6: in the `src/unnamed/part_004` `executeRequest`, every received
response has its body consumed (`await body.dump()`) strictly before the
request finishes and its outcome is determined, whatever the response status
and whatever the body's size. -/
theorem body_consumed_before_finished :
    ∀ (url : String) (s : Nat) (bodyBytes : Nat),
      ∃ (i j : Nat), i < j
        ∧ ((executeRequestTrace url (.response s) bodyBytes).1)[i]? =
            some (ReqEvent.bodyConsumed bodyBytes)
        ∧ ∃ b, ((executeRequestTrace url (.response s) bodyBytes).1)[j]? =
            some (ReqEvent.finished b) := by
  intro url s bytes
  by_cases h : s < 200 ∨ 300 ≤ s
  · refine ⟨2, 3, by omega, ?_, false, ?_⟩ <;>
      simp [executeRequestTrace, if_pos h]
  · refine ⟨2, 3, by omega, ?_, true, ?_⟩ <;>
      simp [executeRequestTrace, if_neg h]

lemma filter_removeQueryParam (k : String) (ps : List (String × String)) :
    (removeQueryParam k ps).filter (fun q => q.1 == k) = [] := by
  rw [List.filter_eq_nil_iff]
  intro a ha
  simp only [removeQueryParam, List.mem_filter] at ha
  simp_all

lemma removeQueryParam_idem (k : String) (ps : List (String × String)) :
    removeQueryParam k (removeQueryParam k ps) = removeQueryParam k ps := by
  unfold removeQueryParam
  rw [List.filter_filter]
  simp

lemma setQueryParam_key_entries (k v : String) (ps : List (String × String)) :
    (setQueryParam k v ps).filter (fun q => q.1 == k) = [(k, v)] := by
  induction ps with
  | nil => simp [setQueryParam]
  | cons p ps ih =>
    by_cases h : p.1 = k
    · simp [setQueryParam, h, List.filter_cons, filter_removeQueryParam]
    · simp [setQueryParam, h, List.filter_cons, ih]

lemma setQueryParam_others (k v : String) (ps : List (String × String)) :
    (setQueryParam k v ps).filter (fun q => !(q.1 == k)) =
      ps.filter (fun q => !(q.1 == k)) := by
  induction ps with
  | nil => simp [setQueryParam]
  | cons p ps ih =>
    by_cases h : p.1 = k
    · simp [setQueryParam, h, List.filter_cons]
      exact removeQueryParam_idem k ps
    · simp [setQueryParam, h, List.filter_cons, ih]

lemma setQueryParam_idem (k v : String) (ps : List (String × String)) :
    setQueryParam k v (setQueryParam k v ps) = setQueryParam k v ps := by
  induction ps with
  | nil => simp [setQueryParam, removeQueryParam]
  | cons p ps ih =>
    by_cases h : p.1 = k
    · simp [setQueryParam, h, removeQueryParam_idem]
    · simp [setQueryParam, h, ih]

/-- C8: the cache-busting URL transform is idempotent: it sets the query
parameter named `cache` to the literal `false` (the transformed URL carries
exactly one `cache` parameter, with value `false`), preserves all other query
parameters and their order as well as the rest of the URL, and applying it a
second time yields the same URL, with no duplicated `cache=false` parameter. -/
theorem cacheBust_idempotent :
    ∀ u : AbsUrl,
      addCacheBust (addCacheBust u) = addCacheBust u
      ∧ (addCacheBust u).query.filter (fun q => q.1 == "cache") =
          [("cache", "false")]
      ∧ (addCacheBust u).query.filter (fun q => !(q.1 == "cache")) =
          u.query.filter (fun q => !(q.1 == "cache"))
      ∧ (addCacheBust u).base = u.base := by
  intro u
  refine ⟨?_, setQueryParam_key_entries _ _ _, setQueryParam_others _ _ _, rfl⟩
  simp only [addCacheBust]
  rw [setQueryParam_idem]


lemma schedLoop_length_last (start t0 : Int) :
    ∀ (recs : List ScheduledRequest) (now : Int),
      (schedLoop start t0 now recs).1.length = recs.length
      ∧ (recs ≠ [] → ∃ d, (schedLoop start t0 now recs).1.getLast? = some d
          ∧ (schedLoop start t0 now recs).2 = d.fireTime) := by
  intro recs
  induction recs with
  | nil => intro now; simp [schedLoop]
  | cons r rs ih =>
    intro now
    simp only [schedLoop]
    set fire := if 0 < start + (r.time - t0) - now then start + (r.time - t0) else now
      with hfire
    obtain ⟨ihlen, ihlast⟩ := ih fire
    refine ⟨by simp [ihlen], fun _ => ?_⟩
    cases hrs : rs with
    | nil =>
      subst hrs
      simp [schedLoop] at ihlen ⊢
    | cons r' rs' =>
      obtain ⟨d, hd1, hd2⟩ := ihlast (by simp [hrs])
      rw [← hrs]
      refine ⟨d, ?_, hd2⟩
      rcases hsl : (schedLoop start t0 fire rs).1 with _ | ⟨y, ys⟩
      · rw [hsl] at ihlen
        simp [hrs] at ihlen
      · rw [List.getLast?_cons_cons, ← hsl]
        exact hd1

/-- C1 (amended): after the record stream is exhausted `loadTest` terminates
immediately, with no terminal wait on in-flight requests: for a nonempty
stream it dispatches one request per record, prints `All requests initiated`,
and returns exactly at the fire time of the last dispatch — its return time is
fixed by the schedule alone, independent of how long any dispatched request
takes, so dispatched requests may still be in flight when it returns. -/
theorem loadTest_no_terminal_wait :
    ∀ (start : Int) (recs : List ScheduledRequest), recs ≠ [] →
      (loadTest start recs).outcome = RunOutcome.allInitiated
      ∧ (loadTest start recs).dispatches.length = recs.length
      ∧ ∃ d, (loadTest start recs).dispatches.getLast? = some d
          ∧ (loadTest start recs).returnTime = d.fireTime := by
  intro start recs hne
  match recs with
  | r :: rs =>
    obtain ⟨hlen, hlast⟩ :=
      schedLoop_length_last start r.time (r :: rs) start
    obtain ⟨d, hd1, hd2⟩ := hlast (by simp)
    exact ⟨rfl, hlen, d, hd1, hd2⟩

/-- Witness for C1 (amended) at a one-record stream. -/
theorem loadTest_no_terminal_wait_witness :
    (loadTest 0 [⟨0, "http://a"⟩]).outcome = RunOutcome.allInitiated
    ∧ (loadTest 0 [⟨0, "http://a"⟩]).dispatches.length = 1
    ∧ ∃ d, (loadTest 0 [⟨0, "http://a"⟩]).dispatches.getLast? = some d
        ∧ (loadTest 0 [⟨0, "http://a"⟩]).returnTime = d.fireTime :=
  loadTest_no_terminal_wait 0 [⟨0, "http://a"⟩] (by simp)

/-- Counterexample to C1 as stated: on a stream with a single record whose
request takes 5 ms, `loadTest` returns (printing its final output) at instant
0, while that dispatched request is still in flight — the run does not wait
for `inFlightCount` to reach zero. -/
theorem loadTest_returns_while_in_flight :
    (loadTest 0 [⟨0, "http://a"⟩]).outcome = RunOutcome.allInitiated
    ∧ (loadTest 0 [⟨0, "http://a"⟩]).returnTime = 0
    ∧ inFlightAt (loadTest 0 [⟨0, "http://a"⟩]).dispatches [5]
        (loadTest 0 [⟨0, "http://a"⟩]).returnTime = 1 := by
  refine ⟨rfl, rfl, ?_⟩
  rfl

lemma accelTarget_mono {a : ℚ} (ha : 0 < a) {x y t0 : Int} (h : x ≤ y) :
    Int.floor (((x - t0 : Int) : ℚ) / a) ≤ Int.floor (((y - t0 : Int) : ℚ) / a) := by
  have hc : ((x - t0 : Int) : ℚ) ≤ ((y - t0 : Int) : ℚ) := by
    exact_mod_cast sub_le_sub_right h t0
  apply Int.floor_mono
  gcongr

lemma schedLoopAccel_fireTimes (start t0 : Int) (a : ℚ) (ha : 0 < a) :
    ∀ (recs : List ScheduledRequest) (now : Int),
      List.Chain' (· ≤ ·) (recs.map (fun q => q.time)) →
      (∀ q, recs.head? = some q →
        now ≤ start + Int.floor (((q.time - t0 : Int) : ℚ) / a)) →
      (schedLoopAccel start t0 a now recs).1.map (fun d => d.fireTime) =
        recs.map (fun q => start + Int.floor (((q.time - t0 : Int) : ℚ) / a)) := by
  intro recs
  induction recs with
  | nil => intro now _ _; rfl
  | cons r rs ih =>
    intro now hchain hnow
    have hr := hnow r rfl
    have hfire :
        (if 0 < start + Int.floor (((r.time - t0 : Int) : ℚ) / a) - now
          then start + Int.floor (((r.time - t0 : Int) : ℚ) / a) else now)
          = start + Int.floor (((r.time - t0 : Int) : ℚ) / a) := by
      split <;> omega
    rw [List.map_cons] at hchain
    rw [List.chain'_cons'] at hchain
    obtain ⟨hhead, htail⟩ := hchain
    simp only [schedLoopAccel, hfire, List.map_cons, List.map]
    congr 1
    apply ih
    · exact htail
    · intro q hq
      have hle : r.time ≤ q.time := by
        apply hhead
        rw [List.head?_map, hq]
        rfl
      exact add_le_add_left (accelTarget_mono ha hle) start

lemma schedLoopAccel_one (start t0 : Int) :
    ∀ (recs : List ScheduledRequest) (now : Int),
      schedLoopAccel start t0 1 now recs = schedLoop start t0 now recs := by
  intro recs
  induction recs with
  | nil => intro now; rfl
  | cons r rs ih =>
    intro now
    simp only [schedLoopAccel, schedLoop, div_one, Int.floor_intCast, ih]

/-- C2 (amended): under a nondecreasing recorded timeline and a positive
acceleration factor `a`, every record is dispatched exactly at
`runStartWallClock + floor((record.scheduledTime - firstRecordTime) / a)`
(hence no negative sleeps, and records sharing a `scheduledTime` fire
back-to-back at the same instant); consequently two consecutive records are
dispatched `floor((t2 - t0)/a) - floor((t1 - t0)/a)` apart — which for the
default `a = 1` equals their recorded gap `d` exactly. -/
theorem loadTestAccel_fire_times :
    ∀ (start : Int) (a : ℚ) (r : ScheduledRequest) (rs : List ScheduledRequest),
      0 < a →
      List.Chain' (· ≤ ·) ((r :: rs).map (fun q => q.time)) →
      ((loadTestAccel start a (r :: rs)).dispatches.map (fun d => d.fireTime) =
        (r :: rs).map
          (fun q => start + Int.floor (((q.time - r.time : Int) : ℚ) / a)))
      ∧ (∀ (i : Nat) (q1 q2 : ScheduledRequest),
          (r :: rs)[i]? = some q1 → (r :: rs)[i + 1]? = some q2 →
          ∃ f1 f2,
            ((loadTestAccel start a (r :: rs)).dispatches.map
              (fun d => d.fireTime))[i]? = some f1
            ∧ ((loadTestAccel start a (r :: rs)).dispatches.map
                (fun d => d.fireTime))[i + 1]? = some f2
            ∧ f2 - f1 = Int.floor (((q2.time - r.time : Int) : ℚ) / a)
                - Int.floor (((q1.time - r.time : Int) : ℚ) / a)
            ∧ (a = 1 → f2 - f1 = q2.time - q1.time)) := by
  intro start a r rs ha hchain
  have hmap :
      (loadTestAccel start a (r :: rs)).dispatches.map (fun d => d.fireTime) =
        (r :: rs).map
          (fun q => start + Int.floor (((q.time - r.time : Int) : ℚ) / a)) := by
    apply schedLoopAccel_fireTimes start r.time a ha (r :: rs) start hchain
    intro q hq
    have hqr : q = r := by
      simp only [List.head?_cons, Option.some.injEq] at hq
      exact hq.symm
    subst hqr
    simp
  refine ⟨hmap, ?_⟩
  intro i q1 q2 h1 h2
  refine ⟨start + Int.floor (((q1.time - r.time : Int) : ℚ) / a),
      start + Int.floor (((q2.time - r.time : Int) : ℚ) / a), ?_, ?_, by ring, ?_⟩
  · rw [hmap, List.getElem?_map, h1]
    rfl
  · rw [hmap, List.getElem?_map, h2]
    rfl
  · intro ha1
    subst ha1
    simp only [div_one, Int.floor_intCast]
    ring

/-- Witness for C2 (amended): with acceleration factor 2 and recorded times
0, 0, 3 the three dispatches fire at instants 0, 0 and 1 — the two records
sharing time 0 fire back-to-back. -/
theorem loadTestAccel_fire_times_witness :
    (loadTestAccel 0 2 [⟨0, "u"⟩, ⟨0, "v"⟩, ⟨3, "w"⟩]).dispatches.map
        (fun d => d.fireTime) = [0, 0, 1] := by
  have h := (loadTestAccel_fire_times 0 2 ⟨0, "u"⟩ [⟨0, "v"⟩, ⟨3, "w"⟩]
    (by norm_num) (by norm_num [List.chain'_cons])).1
  rw [h]
  norm_num

/-- Counterexample to C2 as stated: with acceleration factor `a = 2` and
recorded times 0, 1, 2 the dispatches fire at instants 0, 0 and 1, so the last
two records, recorded gap `d = 1` apart, are dispatched 1 ms apart — not
`floor(d/a) = floor(1/2) = 0` ms apart. -/
theorem loadTestAccel_gap_counterexample :
    (loadTestAccel 0 2 [⟨0, "u"⟩, ⟨1, "v"⟩, ⟨2, "w"⟩]).dispatches.map
        (fun d => d.fireTime) = [0, 0, 1]
    ∧ (1 : Int) - 0 ≠ Int.floor (((2 - 1 : Int) : ℚ) / 2) := by
  constructor
  · have hhalf : Int.floor ((2 : ℚ)⁻¹) = 0 := by norm_num
    simp [loadTestAccel, schedLoopAccel, hhalf]
  · norm_num

lemma splitOnChar_ne_nil (c : Char) (s : List Char) : splitOnChar c s ≠ [] := by
  cases s with
  | nil => simp [splitOnChar]
  | cons x xs =>
    simp only [splitOnChar]
    split
    · simp
    · split <;> simp

lemma splitOnChar_length (c : Char) :
    ∀ s : List Char, (splitOnChar c s).length = s.count c + 1
  | [] => by simp [splitOnChar]
  | x :: xs => by
    have ih := splitOnChar_length c xs
    rcases heq : splitOnChar c xs with _ | ⟨hd, t⟩
    · exact absurd heq (splitOnChar_ne_nil c xs)
    · rw [heq] at ih
      simp only [splitOnChar, heq]
      by_cases hx : x == c
      · have hxc : x = c := by simpa using hx
        simp [hx, List.count_cons, hxc, ← ih]
      · have hxc : ¬ x = c := by simpa using hx
        simp [hx, List.count_cons, hxc, ← ih]

lemma splitOnChar_not_mem (c : Char) :
    ∀ (s : List Char) (p : List Char), p ∈ splitOnChar c s → c ∉ p := by
  intro s
  induction s with
  | nil =>
    intro p hp
    simp [splitOnChar] at hp
    simp [hp]
  | cons x xs ih =>
    intro p hp
    rcases heq : splitOnChar c xs with _ | ⟨hd, t⟩
    · exact absurd heq (splitOnChar_ne_nil c xs)
    · simp only [splitOnChar, heq] at hp
      by_cases hx : x == c
      · rw [if_pos hx] at hp
        rcases List.mem_cons.mp hp with h1 | h2
        · simp [h1]
        · exact ih p (heq ▸ h2)
      · rw [if_neg hx] at hp
        rcases List.mem_cons.mp hp with h1 | h2
        · subst h1
          intro hc
          rcases List.mem_cons.mp hc with h3 | h4
          · exact absurd (by simp [h3]) hx
          · exact ih hd (heq ▸ List.mem_cons_self hd t) h4
        · exact ih p (heq ▸ List.mem_cons_of_mem hd h2)

lemma splitOnChar_append (c : Char) :
    ∀ (t u : List Char), c ∉ t →
      splitOnChar c (t ++ c :: u) = t :: splitOnChar c u
  | [], u, _ => by
    rcases heq : splitOnChar c u with _ | ⟨hd, tl⟩
    · exact absurd heq (splitOnChar_ne_nil c u)
    · simp [splitOnChar, heq]
  | x :: t, u, hx => by
    have hxc : ¬ x == c := by
      simp only [beq_iff_eq]
      intro hh
      exact hx (by simp [hh])
    have ih := splitOnChar_append c t u (fun hm => hx (List.mem_cons_of_mem _ hm))
    show splitOnChar c (x :: (t ++ c :: u)) = (x :: t) :: splitOnChar c u
    rw [splitOnChar.eq_2, ih]
    have hxc2 : ¬ x = c := by simpa using hxc
    simp [hxc2]

lemma mem_jsTrim {x : Char} {s : List Char} (h : x ∈ jsTrim s) : x ∈ s := by
  unfold jsTrim at h
  rw [List.mem_reverse] at h
  have h1 := (List.dropWhile_sublist _).subset h
  rw [List.mem_reverse] at h1
  exact (List.dropWhile_sublist _).subset h1

/-- C5: `parseCSV` classifies every non-blank input line, identifying it by
its line number: a line that does not split into exactly two comma-separated
fields fails with the expected-2-columns error reporting the field count; a
two-field line whose first field is not numeric (in the `parseFloat` sense,
scientific notation accepted) fails with the invalid-time error carrying that
field; one whose second field trims to empty fails with the invalid-URL
error; otherwise the line yields the record of its two trimmed fields. -/
theorem parse_line_classification :
    ∀ (n : Nat) (line : List Char), jsTrim line ≠ [] →
      ((splitOnChar ',' (jsTrim line)).length ≠ 2 →
        transformLine n line =
          .err (.twoColumns n (splitOnChar ',' (jsTrim line)).length))
      ∧ (∀ f0 f1, splitOnChar ',' (jsTrim line) = [f0, f1] →
          (jsParseFloatIsNum (jsTrim f0) = false →
            transformLine n line = .err (.invalidTime n f0))
          ∧ (jsParseFloatIsNum (jsTrim f0) = true → jsTrim f1 = [] →
            transformLine n line = .err (.invalidURL n))
          ∧ (jsParseFloatIsNum (jsTrim f0) = true → jsTrim f1 ≠ [] →
            transformLine n line = .record ⟨jsTrim f0, jsTrim f1⟩)) := by
  intro n line hnb
  constructor
  · intro hlen
    rcases heq : splitOnChar ',' (jsTrim line) with _ | ⟨f0, _ | ⟨f1, _ | ⟨f2, tl⟩⟩⟩
    · simp [transformLine, hnb, heq]
    · simp [transformLine, hnb, heq]
    · rw [heq] at hlen
      simp at hlen
    · simp [transformLine, hnb, heq]
  · intro f0 f1 heq
    refine ⟨?_, ?_, ?_⟩
    · intro hnum
      simp [transformLine, hnb, heq, hnum]
    · intro hnum hurl
      simp [transformLine, hnb, heq, hnum, hurl]
    · intro hnum hurl
      simp [transformLine, hnb, heq, hnum, hurl]

/-- Witness for C5: a line with a scientific-notation timestamp and a URL
yields a record of the two trimmed fields. -/
theorem parse_line_classification_witness :
    transformLine 1 "1.23E12,https://example.com".data =
      .record ⟨"1.23E12".data, "https://example.com".data⟩ := by
  have h := (parse_line_classification 1 "1.23E12,https://example.com".data
    (by decide)).2 "1.23E12".data "https://example.com".data (by decide)
  exact h.2.2 (by decide) (by decide)

lemma transformLine_record_url (n : Nat) (line : List Char) (r : CSVRecord)
    (h : transformLine n line = .record r) :
    ∃ f1, f1 ∈ splitOnChar ',' (jsTrim line) ∧ r.url = jsTrim f1 := by
  by_cases hb : jsTrim line = []
  · simp [transformLine, hb] at h
  · rcases heq : splitOnChar ',' (jsTrim line) with _ | ⟨f0, _ | ⟨f1, _ | ⟨f2, tl⟩⟩⟩
    · simp [transformLine, hb, heq] at h
    · simp [transformLine, hb, heq] at h
    · simp only [transformLine, hb, heq] at h
      refine ⟨f1, by simp [heq], ?_⟩
      by_cases h1 : jsParseFloatIsNum (jsTrim f0) = false
      · simp [h1] at h
      · by_cases h2 : jsTrim f1 = []
        · simp [h1, h2] at h
        · simp [h1, h2] at h
          rw [← h]
    · simp [transformLine, hb, heq] at h

/-- C9 (implicit): any input line whose URL field itself contains a comma is
rejected by `parseCSV` with the expected-2-columns error reporting more than 2
fields (splitting on every comma), and dually no record `parseCSV` ever yields
has a URL containing a comma — such records can never be replayed. -/
theorem comma_in_url_never_replayed :
    (∀ (n : Nat) (line : List Char) (r : CSVRecord),
      transformLine n line = .record r → ',' ∉ r.url)
    ∧ (∀ (n : Nat) (t u : List Char), ',' ∉ t → ',' ∈ u →
        jsTrim (t ++ ',' :: u) = t ++ ',' :: u →
        ∃ cols, transformLine n (t ++ ',' :: u) = .err (.twoColumns n cols)
          ∧ 2 < cols) := by
  constructor
  · intro n line r h
    obtain ⟨f1, hmem, hurl⟩ := transformLine_record_url n line r h
    rw [hurl]
    intro hc
    exact splitOnChar_not_mem ',' (jsTrim line) f1 hmem (mem_jsTrim hc)
  · intro n t u ht hu htrim
    have hne : (t ++ ',' :: u) ≠ ([] : List Char) := by simp
    have hsplit := splitOnChar_append ',' t u ht
    have hlen := splitOnChar_length ',' u
    have hcount : 0 < u.count ',' := List.count_pos_iff.mpr hu
    rcases hsu : splitOnChar ',' u with _ | ⟨hd, _ | ⟨y, tl⟩⟩
    · exact absurd hsu (splitOnChar_ne_nil ',' u)
    · rw [hsu] at hlen
      simp at hlen
      omega
    · rw [hsu] at hsplit
      refine ⟨tl.length + 3, ?_, by omega⟩
      simp [transformLine, htrim, hne, hsplit]

/-- Witness for C9: the line `5,http://a/b,c`, whose URL field contains a
comma, is rejected at line 1 with a field count above 2; and the record parsed
from `5,http://a/b` has no comma in its URL. -/
theorem comma_in_url_never_replayed_witness :
    (',' ∉ (⟨"5".data, "http://a/b".data⟩ : CSVRecord).url)
    ∧ ∃ cols, transformLine 1 ("5".data ++ ',' :: "http://a/b,c".data)
        = .err (.twoColumns 1 cols) ∧ 2 < cols :=
  ⟨comma_in_url_never_replayed.1 1 "5,http://a/b".data
      ⟨"5".data, "http://a/b".data⟩ (by decide),
   comma_in_url_never_replayed.2 1 "5".data "http://a/b,c".data
      (by decide) (by decide) (by decide)⟩

/-- C10 (implicit): when the first malformed line of the input is preceded by
`pre` (all of whose lines are blank or well-formed), the `parseCSV` stream
yields, in file order, exactly one record for every well-formed line of `pre`
and then fails with the malformed line's error; the records already yielded
are unaffected by the later error, and nothing after the malformed line is
processed. -/
theorem records_before_first_error :
    ∀ (pre : List (List Char)) (n : Nat) (bad : List Char)
      (post : List (List Char)) (e : ParseErr),
      errorFree n pre = true →
      transformLine (n + pre.length + 1) bad = .err e →
      runParse n (pre ++ bad :: post) = (yieldedRecords n pre, some e) := by
  intro pre
  induction pre with
  | nil =>
    intro n bad post e _ hbad
    simp only [List.length_nil, Nat.add_zero] at hbad
    simp [runParse, yieldedRecords, hbad]
  | cons l pre ih =>
    intro n bad post e hfree hbad
    have harith : n + (l :: pre).length + 1 = (n + 1) + pre.length + 1 := by
      simp only [List.length_cons]
      omega
    rw [harith] at hbad
    simp only [errorFree] at hfree
    rcases hl : transformLine (n + 1) l with _ | e' | r
    · rw [hl] at hfree
      simp only [List.cons_append, runParse, hl, yieldedRecords]
      exact ih (n + 1) bad post e hfree hbad
    · rw [hl] at hfree
      simp at hfree
    · rw [hl] at hfree
      simp only [List.cons_append, runParse, hl, yieldedRecords]
      have hih := ih (n + 1) bad post e hfree hbad
      simp only [List.append_eq]
      rw [hih]

/-- Witness for C10: with a well-formed line 1, a malformed line 2 and a
well-formed line 3, the stream yields exactly the record of line 1 and then
the expected-2-columns error naming line 2. -/
theorem records_before_first_error_witness :
    runParse 0 ["1,a".data, "x,y,z".data, "2,b".data] =
      ([⟨"1".data, "a".data⟩], some (.twoColumns 2 3)) :=
  records_before_first_error ["1,a".data] 0 "x,y,z".data ["2,b".data]
    (.twoColumns 2 3) (by decide) (by decide)
